import Mathlib

/-!
Verification development for the AHCI (SATA) driver of the rust_os kernel
(`Kernel/Modules/storage_ahci/lib.rs`) and the driver-selection logic of the
core device manager (`Kernel/Core/device_manager.rs`).

The Rust source is shallowly embedded: machine integers (`u8`, `u32`, `usize`)
become `Nat` with explicit truncation where the source casts, fallible or
panicking paths become `Option`, and the lock-free slot pool becomes an
explicit labelled transition system over an abstract pool state.
-/

namespace Ahci

/-! ## Constants

`PAGE_SIZE` is 4096 bytes, as stated by the allocation comment in `Port::new`
("Up to MAX_COMMANDS_FOR_SHARE in 1024 -- 4096-256").  The sizes of the
hardware structures come from the size comments in the `Port` declaration:
a command-header entry (`hw::CmdHeader`) is 32 bytes ("1KB (<32*32 bytes) for
the command list"), a command table entry (`hw::CmdTable`) is 0x100 bytes
("<16KB (32*256 bytes) of command tables") and the received-FIS area
(`hw::RcvdFis`) is 256 bytes ("256 bytes of Received FIS"). -/

def PAGE_SIZE : Nat := 4096

/-- Size in bytes of one `hw::CmdHeader` entry. -/
def CMD_HEADER_SIZE : Nat := 32

/-- Size in bytes of one `hw::CmdTable` entry. -/
def CMD_TABLE_SIZE : Nat := 0x100

/-- Size in bytes of the `hw::RcvdFis` structure. -/
def RCVDFIS_SIZE : Nat := 256

/-- Maximum number of commands before a single page can not be shared
(`MAX_COMMANDS_FOR_SHARE` in the source). -/
def MAX_COMMANDS_FOR_SHARE : Nat := (PAGE_SIZE - 256) / (256 + 32)

/-- Command table entries per extra whole page (`CMDS_PER_PAGE` in the source). -/
def CMDS_PER_PAGE : Nat := PAGE_SIZE / 0x100

/-! ## Device detection (`Port::update_connection`) -/

/-- Modelled from the spec: bit constant `hw::PxTFD_STS_BSY` of the missing
`hw` register module; the spec says the skip condition is "the device reports
busy", the busy bit of the ATA status byte (bit 7). -/
def PxTFD_STS_BSY : Nat := 0x80

/-- Modelled from the spec: bit constant `hw::PxTFD_STS_DRQ` of the missing
`hw` register module; the spec says the skip condition is "data-request
pending", the DRQ bit of the ATA status byte (bit 3). -/
def PxTFD_STS_DRQ : Nat := 0x08

/-- Modelled from the spec: field mask `hw::PxSSTS_DET` of the missing `hw`
register module; the PHY-detect field is the low 4-bit field of the
SATA-status register. -/
def PxSSTS_DET : Nat := 0xF

/-- Modelled from the spec: field offset `hw::PxSSTS_DET_ofs` of the missing
`hw` register module; the PHY-detect field sits at bit offset 0. -/
def PxSSTS_DET_ofs : Nat := 0

/-- Command byte issued by `Port::update_connection` as a function of the
task-file-data register, the SATA-status register and the signature register,
embedded from the source: return early when busy or DRQ is set, or when the
DET field is not 3; otherwise dispatch on the signature
(`0x00000101` issues ATA IDENTIFY `0xEC`, `0xEB140101` issues ATA IDENTIFY
PACKET `0xA1`, anything else only logs). -/
def update_connection_cmd (tfd ssts sig : Nat) : Option Nat :=
  if tfd &&& (PxTFD_STS_BSY ||| PxTFD_STS_DRQ) ≠ 0 then none
  else if (ssts &&& PxSSTS_DET) >>> PxSSTS_DET_ofs ≠ 3 then none
  else if sig = 0x00000101 then some 0xEC
  else if sig = 0xEB140101 then some 0xA1
  else none

/-! ## FIS construction (`Port::request_ata_lba28`) -/

/-- Modelled from the spec: the fixed type tag `hw::sata::FisType::H2DRegister`
of the missing `hw::sata` module (the standard SATA host-to-device register
FIS type byte). -/
def FIS_H2DRegister : Nat := 0x27

/-- Host-to-device register FIS, fields as written by
`Port::request_ata_lba28`; every field is a `u8` modelled as `Nat`. -/
structure FisHost2DevReg where
  ty : Nat
  flags : Nat
  command : Nat
  sector_num : Nat
  cyl_low : Nat
  cyl_high : Nat
  dev_head : Nat
  sector_num_exp : Nat
  sector_count : Nat
  sector_count_exp : Nat
deriving DecidableEq

/-- Embedding of `Port::request_ata_lba28`: the function first executes
`assert!(lba < (1<<24))` (modelled as `none` on failure, the panic path) and
then builds the register FIS exactly as the source does, with `as u8` casts
modelled by `% 256`. -/
def request_ata_lba28 (disk cmd n_sectors lba : Nat) : Option FisHost2DevReg :=
  if lba < 1 <<< 24 then
    some {
      ty := FIS_H2DRegister
      flags := 0x80
      command := cmd
      sector_num := lba % 256
      cyl_low := (lba >>> 8) % 256
      cyl_high := (lba >>> 16) % 256
      dev_head := 0x40 ||| ((disk <<< 4) % 256) ||| ((lba >>> 24) % 256)
      sector_num_exp := 0
      sector_count := n_sectors
      sector_count_exp := 0 }
  else none

/-- Decoder for the packed LBA28 fields, following the wording of the claim:
sector_num, cyl_low, cyl_high hold LBA bits 0-7, 8-15, 16-23, the low nibble
of dev_head holds bits 24-27, bit 4 of dev_head is the disk select, and
sector_count holds the count.  Returns (lba, disk, count). -/
def decode_lba28 (f : FisHost2DevReg) : Nat × Nat × Nat :=
  (f.sector_num + (f.cyl_low <<< 8) + (f.cyl_high <<< 16) + ((f.dev_head &&& 0xF) <<< 24),
   (f.dev_head >>> 4) &&& 1,
   f.sector_count)

/-! ## Completion wait (`CommandSlot::wait`) -/

/-- Outcome of `CommandSlot::wait` after the event fires: normal return, the
"woken while still active" panic, or the "Command errored" panic. -/
inductive WaitOutcome where
  | success
  | panicStillActive
  | panicErrored
deriving DecidableEq

/-- Embedding of the post-wake check of `CommandSlot::wait`: `active` is the
value read from `PxCI`, `error` the value read from `PxSERR`, `idx` the slot
index. -/
def wait_outcome (idx active error : Nat) : WaitOutcome :=
  if active &&& (1 <<< idx) = 0 then .success
  else if error &&& (1 <<< idx) = 0 then .panicStillActive
  else .panicErrored

/-! ## Interrupt handling (`Port::handle_irq`) -/

/-- Slots whose completion event `Port::handle_irq` posts, in scan order.
`int_status` is the value read from `PxIS` (it only gates logging, never the
completion scan), `issued` is `PxCI`, `active` is `PxSACT`, `error` is
`PxSERR`, `used` is the `used_commands` bitmask, and `max` is
`ctrlr.max_commands`.  A used slot is posted when its issue bit or its
SATA-active bit has cleared, or when the SATA-error register has its bit
set. -/
def handle_irq_posts (max int_status used issued active error : Nat) : List Nat :=
  (List.range max).filter (fun cmd =>
    (used &&& (1 <<< cmd) != 0) &&
      ((issued &&& (1 <<< cmd) == 0) || (active &&& (1 <<< cmd) == 0) ||
        (error &&& (1 <<< cmd) != 0)))

/-! ## Command-table addressing (`Port::cmdidx_to_ref` / `Port::new`) -/

/-- Location of a command-table entry: either a byte offset inside the shared
command-list page, or (page, index) inside one of the extra command-table
pages. -/
inductive CmdTabLoc where
  | shared (byteOfs : Nat)
  | tabPage (pg : Nat) (ofs : Nat)
deriving DecidableEq

/-- Size in bytes of the command list (`cl_size` in `Port::new`). -/
def cl_size (max_commands : Nat) : Nat := max_commands * CMD_HEADER_SIZE

/-- Number of extra command-table pages allocated by `Port::new`
(`n_pages` in the source; zero when everything fits in the shared page). -/
def n_tab_pages (max_commands : Nat) : Nat :=
  if max_commands ≤ MAX_COMMANDS_FOR_SHARE then 0
  else (max_commands - MAX_COMMANDS_FOR_SHARE + CMDS_PER_PAGE - 1) / CMDS_PER_PAGE

/-- Number of command tables that `Port::cmdidx_to_ref` places in the shared
command-list page (`n_shared` in the source). -/
def n_shared (max_commands : Nat) : Nat :=
  (PAGE_SIZE - cl_size max_commands) / 0x100 - 1

/-- Embedding of `Port::cmdidx_to_ref`: slot `i` lives in the shared page at
byte offset `cl_size + i * 0x100` when `i < n_shared`, otherwise in extra
page `(i - n_shared) / CMDS_PER_PAGE` at entry `(i - n_shared) % CMDS_PER_PAGE`. -/
def cmdidx_to_ref (max_commands i : Nat) : CmdTabLoc :=
  if i < n_shared max_commands then
    .shared (cl_size max_commands + i * CMD_TABLE_SIZE)
  else
    .tabPage ((i - n_shared max_commands) / CMDS_PER_PAGE)
      ((i - n_shared max_commands) % CMDS_PER_PAGE)

/-! ## PRDT construction (`Port::do_fis`) -/

/-- Hardware limit of one PRDT entry (`MAX_SEG_LEN` in `Port::do_fis`). -/
def MAX_SEG_LEN : Nat := 1 <<< 22

/-- Embedding of the inner while loop of the scatter-gather builder in
`Port::do_fis`: starting from the initial `seglen`, keep extending the
segment by one page while it is shorter than the remaining buffer, does not
exceed the 4MB cap, and the byte at `va + seglen - 1` is still physically
contiguous with the segment base.  `fuel` bounds the recursion; the loop
adds at least one byte per iteration, so `fuel = len` always suffices (see
`growSegF_stable`). -/
def growSegF (phys : Nat → Nat) (va base len : Nat) : Nat → Nat → Nat
  | 0, seglen => seglen
  | fuel + 1, seglen =>
    if seglen < len ∧ seglen ≤ MAX_SEG_LEN ∧ phys (va + seglen - 1) = base + (seglen - 1) then
      growSegF phys va base len fuel (seglen + PAGE_SIZE)
    else seglen

/-- The inner segment-growing loop of `Port::do_fis` with its fuel
instantiated sufficiently. -/
def growSeg (phys : Nat → Nat) (va base len seglen : Nat) : Nat :=
  growSegF phys va base len len seglen

/-- Embedding of the outer PRDT loop of `Port::do_fis`: walk the buffer,
emitting one `(DBA, DBC)` pair per segment (`DBC` is the byte count minus
one).  The `todo!` bounce-buffer panic on an unaligned segment is modelled as
`none`.  `fuel` bounds the recursion; every iteration consumes at least one
byte of `len`, so `fuel = len` always suffices (see `buildPrdtF_stable`). -/
def buildPrdtF (phys : Nat → Nat) : Nat → Nat → Nat → Option (List (Nat × Nat))
  | _, _, 0 => some []
  | 0, _, _ + 1 => none
  | fuel + 1, va, len + 1 =>
    let len := len + 1
    let base := phys va
    let seglen := growSeg phys va base len (PAGE_SIZE - base % PAGE_SIZE)
    let seglen := min len seglen
    let seglen := min MAX_SEG_LEN seglen
    if base % 4 ≠ 0 ∨ seglen % 2 ≠ 0 then none
    else
      match buildPrdtF phys fuel (va + seglen) (len - seglen) with
      | none => none
      | some rest => some ((base, seglen - 1) :: rest)

/-- The PRDT loop of `Port::do_fis` with its fuel instantiated sufficiently. -/
def buildPrdt (phys : Nat → Nat) (va len : Nat) : Option (List (Nat × Nat)) :=
  buildPrdtF phys len va len

/-- The statement `slot.data.prdt[n_prdt_ents-1].DBC |= 1 << 31` of
`Port::do_fis`: set the interrupt-on-completion bit on the last emitted
entry. -/
def setIOClast : List (Nat × Nat) → List (Nat × Nat)
  | [] => []
  | [e] => [(e.1, e.2 ||| (1 <<< 31))]
  | e :: rest => e :: setIOClast rest

/-- Command-header fields written by `Port::do_fis`. -/
structure CmdHeaderModel where
  PRDTL : Nat
  Flags : Nat
deriving DecidableEq

/-- Embedding of the PRDT part of `Port::do_fis`: build the scatter-gather
list, set the interrupt-on-completion flag on entry `n_prdt_ents - 1`, and
record the entry count and the header flags.  When the loop emitted no entry
(`len = 0`), the flag write indexes entry `0 - 1`, an out-of-bounds access
modelled as `none`. -/
def do_fis_model (phys : Nat → Nat) (va len : Nat) (is_send : Bool) (cmd_len : Nat) :
    Option (List (Nat × Nat) × CmdHeaderModel) :=
  match buildPrdt phys va len with
  | none => none
  | some ents =>
    match ents with
    | [] => none
    | _ :: _ =>
      some (setIOClast ents,
        { PRDTL := ents.length
          Flags := (if is_send then 1 <<< 6 else 0) ||| cmd_len / 4 })

/-- Concrete physical-address map used to exercise `Port::do_fis`: a two-page
buffer at virtual addresses 0..8191 whose first page sits at physical
0x10000 and whose second page sits at physical 0x30000, so the two pages are
not physically contiguous. -/
def physTwoPages (v : Nat) : Nat :=
  if v < 4096 then 0x10000 + v else 0x30000 + (v - 4096)

/-! ## Driver selection (`device_manager::find_driver`) -/

/-- A registered driver as seen by `find_driver`: its bus-type name and its
`handles` ranking function over device addresses. -/
structure DriverModel where
  bus_type : String
  handles : Nat → Nat

/-- The loop body of `device_manager::find_driver`, iterating over the
registered drivers in registration order while tracking `best_ranking` and
`best_driver`: a driver of a different bus type is skipped, ranking 0 means
"cannot drive", a strictly better ranking replaces the incumbent, and a tie
or a worse ranking leaves the incumbent in place. -/
def find_driver_loop (bus : String) (dev : Nat) :
    List DriverModel → Nat → Option DriverModel → Option DriverModel
  | [], _, best => best
  | d :: rest, best_ranking, best =>
    if d.bus_type = bus then
      if d.handles dev = 0 then
        find_driver_loop bus dev rest best_ranking best
      else if best_ranking < d.handles dev then
        find_driver_loop bus dev rest (d.handles dev) (some d)
      else
        find_driver_loop bus dev rest best_ranking best
    else
      find_driver_loop bus dev rest best_ranking best

/-- Embedding of `device_manager::find_driver`: scan the driver list with
`best_ranking = 0` and no incumbent. -/
def find_driver (bus : String) (dev : Nat) (drivers : List DriverModel) :
    Option DriverModel :=
  find_driver_loop bus dev drivers 0 none

/-! ## Slot pool: shared definitions -/

/-- Lowest clear bit of `mask` below `max`, mirroring the scan loop of
`Port::get_command_slot` (`avail` stays `max` when every bit is set). -/
def lowestClear (mask max : Nat) : Nat :=
  match (List.range max).find? (fun i => mask &&& (1 <<< i) == 0) with
  | some i => i
  | none => max

/-- The `u32` operation `cur & !(1 << idx)` of `CommandSlot::drop`, with the
`u32` complement written out over `Nat`. -/
def clearBit32 (n idx : Nat) : Nat := n &&& ((2 ^ 32 - 1) ^^^ (1 <<< idx))

/-- Number of set bits of a `u32` bitmask (popcount). -/
def popcount32 (n : Nat) : Nat :=
  ((Finset.range 32).filter (fun i => n.testBit i = true)).card

/-! ## Slot pool: sequential model (complete operations)

States reachable by a sequence of completed `Port::get_command_slot` and
`CommandSlot::drop` operations.  One acquisition takes a semaphore permit and
sets the lowest clear bit of the bitmask; one release clears a currently-set
bit and returns the permit. -/

/-- Bitmask and semaphore count of one port. -/
structure SState where
  used : Nat
  sem : Nat
deriving DecidableEq

/-- Freshly constructed port: bitmask zero, semaphore at `max`. -/
def initSState (max : Nat) : SState := ⟨0, max⟩

/-- One completed slot-pool operation: `acquire` is the net effect of
`Port::get_command_slot` (take a permit, set the lowest clear bit), `release`
is the net effect of `CommandSlot::drop` on a held slot `idx` (clear the bit,
return the permit). -/
inductive SeqStep (max : Nat) : SState → SState → Prop where
  | acquire (s : SState) :
      0 < s.sem → lowestClear s.used max < max →
      SeqStep max s ⟨s.used ||| (1 <<< lowestClear s.used max), s.sem - 1⟩
  | release (s : SState) (idx : Nat) :
      idx < max → s.used.testBit idx = true →
      SeqStep max s ⟨clearBit32 s.used idx, s.sem + 1⟩

/-- States reachable from the fresh port by completed operations. -/
def SeqReachable (max : Nat) (s : SState) : Prop :=
  Relation.ReflTransGen (SeqStep max) (initSState max) s

/-- Functional form of one acquisition (used for the acquire-then-release
iteration). -/
def acquireF (max : Nat) (s : SState) : SState :=
  ⟨s.used ||| (1 <<< lowestClear s.used max), s.sem - 1⟩

/-- Functional form of one release of slot `idx`. -/
def releaseF (idx : Nat) (s : SState) : SState :=
  ⟨clearBit32 s.used idx, s.sem + 1⟩

/-- One acquire-then-release pair: acquire a slot and immediately drop it. -/
def acqRelF (max : Nat) (s : SState) : SState :=
  releaseF (lowestClear s.used max) (acquireF max s)

/-! ## Slot pool: fine-grained concurrent model

Each agent is one `get_command_slot` / `CommandSlot::drop` lifecycle.  The
individual atomic actions of the source are separate transitions, so
arbitrary interleavings of any number of concurrent callers are covered:
taking the semaphore permit, loading the bitmask, the compare-and-swap (with
both success and failure/retry), the bit-clearing compare-and-swap loop of
`drop` (whose successful iteration atomically clears the bit), and the final
semaphore release. -/

/-- Local state of one agent. -/
inductive AgentState where
  | idle
  | acquired
  | searching (cur : Nat)
  | holding (idx : Nat)
  | releasing
deriving DecidableEq

/-- Global state: the shared bitmask and semaphore plus every agent. -/
structure PoolState where
  used : Nat
  sem : Nat
  agents : Nat → AgentState

/-- Fresh pool: bitmask zero, semaphore at `max`, all agents idle. -/
def initPool (max : Nat) : PoolState := ⟨0, max, fun _ => .idle⟩

/-- One atomic action of the slot pool. -/
inductive PoolStep (max : Nat) : PoolState → PoolState → Prop where
  | sem_acquire (t : Nat) (s : PoolState) :
      s.agents t = .idle → 0 < s.sem →
      PoolStep max s ⟨s.used, s.sem - 1, Function.update s.agents t .acquired⟩
  | load (t : Nat) (s : PoolState) :
      s.agents t = .acquired →
      PoolStep max s ⟨s.used, s.sem, Function.update s.agents t (.searching s.used)⟩
  | cas_success (t cur : Nat) (s : PoolState) :
      s.agents t = .searching cur → s.used = cur → lowestClear cur max < max →
      PoolStep max s ⟨cur ||| (1 <<< lowestClear cur max), s.sem,
        Function.update s.agents t (.holding (lowestClear cur max))⟩
  | cas_fail (t cur : Nat) (s : PoolState) :
      s.agents t = .searching cur → s.used ≠ cur →
      PoolStep max s ⟨s.used, s.sem, Function.update s.agents t (.searching s.used)⟩
  | drop_clear (t idx : Nat) (s : PoolState) :
      s.agents t = .holding idx →
      PoolStep max s ⟨clearBit32 s.used idx, s.sem, Function.update s.agents t .releasing⟩
  | sem_release (t : Nat) (s : PoolState) :
      s.agents t = .releasing →
      PoolStep max s ⟨s.used, s.sem + 1, Function.update s.agents t .idle⟩

/-- States reachable from the fresh pool under arbitrary interleaving. -/
def PoolReachable (max : Nat) (s : PoolState) : Prop :=
  Relation.ReflTransGen (PoolStep max) (initPool max) s

/-- Invariant of the pool: every live handle (an agent in `holding`) has an
index below `max` whose bit is set, and no two agents hold the same index. -/
def PoolInv (max : Nat) (s : PoolState) : Prop :=
  (∀ t idx, s.agents t = .holding idx → idx < max ∧ s.used.testBit idx = true) ∧
  (∀ t u idx, s.agents t = .holding idx → s.agents u = .holding idx → t = u)

/-! ## Helper lemmas -/

/-- Masking with a single bit is zero exactly when that bit is clear. -/
theorem land_one_shiftLeft_eq_zero_iff (n i : Nat) :
    n &&& (1 <<< i) = 0 ↔ n.testBit i = false := by
  rw [Nat.one_shiftLeft]
  constructor
  · intro h
    have h2 := congrArg (fun m => m.testBit i) h
    simpa [Nat.testBit_and, Nat.testBit_two_pow_self] using h2
  · intro h
    apply Nat.eq_of_testBit_eq
    intro j
    rcases eq_or_ne i j with rfl | hne
    · simp [Nat.testBit_and, h]
    · simp [Nat.testBit_and, Nat.testBit_two_pow_of_ne hne]

/-! ## C5: device detection -/

/-- C5: `Port::update_connection` issues no command when the task-file-data
register reports busy (bit 7) or data-request pending (bit 3), or when the
SATA-status PHY-detect field (the low four bits) is not 3; otherwise it
issues exactly the command determined by the signature: `0x00000101` issues
`0xEC`, `0xEB140101` issues `0xA1`, and any other signature issues no
command. -/
theorem update_connection_cmd_spec (tfd ssts sig : Nat) :
    ((tfd.testBit 7 = true ∨ tfd.testBit 3 = true ∨ ssts % 16 ≠ 3) →
      update_connection_cmd tfd ssts sig = none) ∧
    (tfd.testBit 7 = false → tfd.testBit 3 = false → ssts % 16 = 3 →
      update_connection_cmd tfd ssts sig =
        (if sig = 0x00000101 then some 0xEC
         else if sig = 0xEB140101 then some 0xA1
         else none)) := by
  have hdet : (ssts &&& PxSSTS_DET) >>> PxSSTS_DET_ofs = ssts % 16 := by
    show (ssts &&& 15) >>> 0 = ssts % 16
    rw [Nat.shiftRight_zero, show (15 : Nat) = 2 ^ 4 - 1 from rfl,
      Nat.and_pow_two_sub_one_eq_mod]
  have hmask : tfd &&& (PxTFD_STS_BSY ||| PxTFD_STS_DRQ) =
      (tfd &&& (1 <<< 7)) ||| (tfd &&& (1 <<< 3)) := by
    rw [show PxTFD_STS_BSY ||| PxTFD_STS_DRQ = (1 <<< 7) ||| (1 <<< 3) by decide,
      Nat.and_or_distrib_left]
  have hbsy : tfd &&& (PxTFD_STS_BSY ||| PxTFD_STS_DRQ) = 0 ↔
      (tfd.testBit 7 = false ∧ tfd.testBit 3 = false) := by
    rw [hmask]
    constructor
    · intro h
      have h7 : tfd &&& (1 <<< 7) = 0 := by
        apply Nat.eq_of_testBit_eq
        intro j
        have hj := congrArg (fun m => m.testBit j) h
        simp only [Nat.testBit_or, Nat.zero_testBit] at hj ⊢
        exact (Bool.or_eq_false_iff.mp hj).1
      have h3 : tfd &&& (1 <<< 3) = 0 := by
        apply Nat.eq_of_testBit_eq
        intro j
        have hj := congrArg (fun m => m.testBit j) h
        simp only [Nat.testBit_or, Nat.zero_testBit] at hj ⊢
        exact (Bool.or_eq_false_iff.mp hj).2
      exact ⟨(land_one_shiftLeft_eq_zero_iff tfd 7).mp h7,
        (land_one_shiftLeft_eq_zero_iff tfd 3).mp h3⟩
    · rintro ⟨h7, h3⟩
      rw [(land_one_shiftLeft_eq_zero_iff tfd 7).mpr h7,
        (land_one_shiftLeft_eq_zero_iff tfd 3).mpr h3]
      simp
  constructor
  · intro h
    unfold update_connection_cmd
    rcases h with h | h | h
    · rw [if_pos]
      intro h0
      rw [(hbsy.mp h0).1] at h
      cases h
    · rw [if_pos]
      intro h0
      rw [(hbsy.mp h0).2] at h
      cases h
    · by_cases h0 : tfd &&& (PxTFD_STS_BSY ||| PxTFD_STS_DRQ) ≠ 0
      · rw [if_pos h0]
      · rw [if_neg h0, if_pos (by rw [hdet]; exact h)]
  · intro h7 h3 hd
    unfold update_connection_cmd
    rw [if_neg (by simp only [ne_eq, not_not]; exact hbsy.mpr ⟨h7, h3⟩),
      if_neg (by rw [hdet]; simp [hd])]

/-! ## C6: LBA28 FIS construction -/

/-- C6: the source function `Port::request_ata_lba28` begins with
`assert!(lba < (1<<24))`, so it panics for every LBA with a nonzero bits-24-27
nibble, although its own `dev_head` expression packs `(lba >> 24)` and the
function is the LBA28 entry point: at `lba = 0x1000000` the embedded function
hits the assert (modelled `none`), while at the in-range instance
`lba = 0xABCDEF`, disk 1, sector count 3 the built FIS round-trips through
the packed-field decoder. -/
theorem request_ata_lba28_assert_bug :
    request_ata_lba28 0 0xEC 1 0x1000000 = none ∧
    (∃ f, request_ata_lba28 1 0xEC 3 0xABCDEF = some f ∧
      decode_lba28 f = (0xABCDEF, 1, 3)) := by
  constructor
  · decide
  · exact ⟨_, rfl, by decide⟩

/-! ## C7: completion wait -/

/-- C7 counterexample: the claim states that `CommandSlot::wait` returns
normally exactly when the issue bit and the error bit are both clear; but
with the issue bit clear and the error bit set (`idx = 0`, `PxCI = 0`,
`PxSERR = 1`) the code returns normally, falsifying the claimed
equivalence. -/
theorem wait_outcome_claim_counterexample :
    ¬ (wait_outcome 0 0 1 = .success ↔
        ((0 : Nat).testBit 0 = false ∧ (1 : Nat).testBit 0 = false)) := by
  decide

/-- C7 (amended): `CommandSlot::wait` returns normally exactly when the
command-issue bit is clear, regardless of the error bit; when the issue bit
is still set it panics, with the spurious-wake panic when the error bit is
clear and the command-failed panic when the error bit is set. -/
theorem wait_outcome_spec (idx active error : Nat) :
    (wait_outcome idx active error = .success ↔ active.testBit idx = false) ∧
    (wait_outcome idx active error = .panicStillActive ↔
      (active.testBit idx = true ∧ error.testBit idx = false)) ∧
    (wait_outcome idx active error = .panicErrored ↔
      (active.testBit idx = true ∧ error.testBit idx = true)) := by
  have ha := land_one_shiftLeft_eq_zero_iff active idx
  have he := land_one_shiftLeft_eq_zero_iff error idx
  cases hA : active.testBit idx with
  | false =>
    have h1 : active &&& (1 <<< idx) = 0 := ha.mpr hA
    simp [wait_outcome, h1, hA]
  | true =>
    have h1 : ¬ active &&& (1 <<< idx) = 0 := by
      intro h0
      rw [ha.mp h0] at hA
      cases hA
    cases hE : error.testBit idx with
    | false =>
      have h2 : error &&& (1 <<< idx) = 0 := he.mpr hE
      simp [wait_outcome, h1, h2]
    | true =>
      have h2 : ¬ error &&& (1 <<< idx) = 0 := by
        intro h0
        rw [he.mp h0] at hE
        cases hE
      simp [wait_outcome, h1, h2]

/-- C5 witness: the specification theorem applied at concrete register
values: a busy device issues nothing, and an idle connected device with the
ATA signature issues `0xEC`. -/
theorem update_connection_cmd_spec_witness :
    update_connection_cmd 0x80 0 0x101 = none ∧
    update_connection_cmd 0 3 0x101 = some 0xEC := by
  constructor
  · exact (update_connection_cmd_spec 0x80 0 0x101).1 (Or.inl (by decide))
  · rw [(update_connection_cmd_spec 0 3 0x101).2 (by decide) (by decide) (by decide)]
    decide

/-! ## C3: command-table addressing totality -/

/-- C3: at `max_commands = 28` the addressing function is not total over the
memory allocated by `Port::new`: slot 27 is mapped to extra command-table
page 1 (`cmdidx_to_ref` computes `n_shared = 11`, so slot 27 becomes entry 16
of the extra tier), but `Port::new` allocates only
`(28 - MAX_COMMANDS_FOR_SHARE + CMDS_PER_PAGE - 1) / CMDS_PER_PAGE = 1` extra
page, so page index 1 is outside every allocation. -/
theorem cmdidx_to_ref_out_of_allocation :
    27 < 28 ∧
    cmdidx_to_ref 28 27 = CmdTabLoc.tabPage 1 0 ∧
    n_tab_pages 28 = 1 ∧
    ¬ 1 < n_tab_pages 28 := by
  decide

/-! ## C4: PRDT construction -/

/-- C4: on a two-page buffer whose pages are not physically contiguous
(`physTwoPages 4096 = 0x30000` while the byte after the first page would be
at `0x11000`), the PRDT builder of `Port::do_fis` emits ONE entry covering
both pages (`DBC = 8191`, i.e. 8192 bytes starting at `0x10000`), not the two
entries the claim requires: the inner loop extends `seglen` across the page
boundary before the contiguity check of the next page runs, so the segment
keeps the unverified page.  The command header consequently records
`PRDTL = 1`. -/
theorem do_fis_noncontiguous_counterexample :
    physTwoPages 4096 ≠ physTwoPages 4095 + 1 ∧
    buildPrdt physTwoPages 0 8192 = some [(0x10000, 8191)] ∧
    do_fis_model physTwoPages 0 8192 false 20 =
      some ([(0x10000, 2147491839)], ⟨1, 5⟩) := by
  decide

/-! ## C8: interrupt-handler completion posting -/

/-- C8: during one `Port::handle_irq` call, slot `cmd` is posted exactly once
when it is below `max`, marked used, and its issue bit or SATA-active bit has
cleared or the SATA-error register has its bit set; otherwise it is posted
zero times — independently of the interrupt-status bits that fired. -/
theorem handle_irq_posts_spec (max int_status used issued active error cmd : Nat) :
    (handle_irq_posts max int_status used issued active error).count cmd =
      if cmd < max ∧ used.testBit cmd = true ∧
          (issued.testBit cmd = false ∨ active.testBit cmd = false ∨
            error.testBit cmd = true)
      then 1 else 0 := by
  unfold handle_irq_posts
  have hp : ∀ c : Nat,
      ((used &&& (1 <<< c) != 0) &&
        ((issued &&& (1 <<< c) == 0) || (active &&& (1 <<< c) == 0) ||
          (error &&& (1 <<< c) != 0))) = true ↔
      (used.testBit c = true ∧
        (issued.testBit c = false ∨ active.testBit c = false ∨
          error.testBit c = true)) := by
    intro c
    simp only [Bool.and_eq_true, Bool.or_eq_true, bne_iff_ne, ne_eq, beq_iff_eq]
    rw [land_one_shiftLeft_eq_zero_iff used c, land_one_shiftLeft_eq_zero_iff issued c,
      land_one_shiftLeft_eq_zero_iff active c, land_one_shiftLeft_eq_zero_iff error c]
    simp only [Bool.not_eq_false]
    tauto
  rcases Decidable.em (cmd < max) with hcm | hcm
  · rcases Decidable.em (used.testBit cmd = true ∧
        (issued.testBit cmd = false ∨ active.testBit cmd = false ∨
          error.testBit cmd = true)) with hP | hP
    · rw [if_pos ⟨hcm, hP⟩]
      exact List.count_eq_one_of_mem ((List.nodup_range max).filter _)
        (List.mem_filter.mpr ⟨List.mem_range.mpr hcm, (hp cmd).mpr hP⟩)
    · rw [if_neg (by tauto), List.count_eq_zero]
      intro hmem
      exact hP ((hp cmd).mp (List.mem_filter.mp hmem).2)
  · rw [if_neg (by tauto), List.count_eq_zero]
    intro hmem
    exact hcm (List.mem_range.mp (List.mem_filter.mp hmem).1)

/-! ## C10: PRDT loop needs a non-empty buffer -/

/-- C10: for every non-empty buffer the PRDT loop emits at least one entry
(so the final interrupt-on-completion write at index `n_prdt_ents - 1` and
every index written by the loop are within the emitted range), while for a
zero-length buffer the loop emits no entries and the flag write would index
entry `0 - 1`, the out-of-bounds access modelled by `do_fis_model` returning
`none`. -/
theorem do_fis_nonempty_spec :
    (∀ (phys : Nat → Nat) (va len : Nat), 0 < len →
      ∀ l, buildPrdt phys va len = some l → 0 < l.length) ∧
    (∀ (phys : Nat → Nat) (va : Nat), buildPrdt phys va 0 = some []) ∧
    (∀ (phys : Nat → Nat) (va : Nat) (is_send : Bool) (cmd_len : Nat),
      do_fis_model phys va 0 is_send cmd_len = none) := by
  refine ⟨?_, fun phys va => rfl, fun phys va is_send cmd_len => rfl⟩
  intro phys va len hlen l h
  unfold buildPrdt at h
  rcases len with _ | n
  · exact absurd hlen (lt_irrefl 0)
  · rw [buildPrdtF] at h
    split at h
    · cases h
    · split at h
      · cases h
      · rename_i rest heq
        cases h
        simp

/-- C10 witness: the loop theorem applied at the identity physical map over
one page. -/
theorem do_fis_nonempty_spec_witness :
    (0 : Nat) < 4096 ∧ (0 : Nat) < [((0 : Nat), (4095 : Nat))].length :=
  ⟨by decide,
    do_fis_nonempty_spec.1 (fun v => v) 0 4096 (by decide) [(0, 4095)] (by decide)⟩

/-! ## Fuel adequacy for the PRDT loops

The fuel-based loop embeddings are justified here: with the wrapper fuel the
functions satisfy exactly the recurrences of the source loops, with no fuel
in sight. -/

/-- The segment-growing loop never shrinks `seglen`. -/
theorem growSegF_ge (phys : Nat → Nat) (va base len : Nat) :
    ∀ fuel seglen, seglen ≤ growSegF phys va base len fuel seglen := by
  intro fuel
  induction fuel with
  | zero => intro seglen; exact le_refl _
  | succ n ihn =>
    intro seglen
    rw [growSegF]
    split
    · exact le_trans (Nat.le_add_right seglen PAGE_SIZE) (ihn (seglen + PAGE_SIZE))
    · exact le_refl _

/-- Adding fuel beyond `len - seglen` does not change the segment-growing
loop: the loop body runs only while `seglen < len` and grows `seglen` by a
page each time. -/
theorem growSegF_stable (phys : Nat → Nat) (va base len : Nat) :
    ∀ fuel seglen, len ≤ fuel + seglen →
      growSegF phys va base len fuel seglen =
        growSegF phys va base len (fuel + 1) seglen := by
  intro fuel
  induction fuel with
  | zero =>
    intro seglen h
    rw [growSegF, growSegF]
    rw [if_neg]
    intro hc
    omega
  | succ n ihn =>
    intro seglen h
    rw [growSegF]
    conv_rhs => rw [growSegF]
    split
    · exact ihn (seglen + PAGE_SIZE) (by unfold PAGE_SIZE; omega)
    · rfl

/-- The wrapped segment-growing loop satisfies the recurrence of the inner
while loop of `Port::do_fis` exactly. -/
theorem growSeg_eq (phys : Nat → Nat) (va base len seglen : Nat) :
    growSeg phys va base len seglen =
      if seglen < len ∧ seglen ≤ MAX_SEG_LEN ∧
          phys (va + seglen - 1) = base + (seglen - 1) then
        growSeg phys va base len (seglen + PAGE_SIZE)
      else seglen := by
  unfold growSeg
  cases len with
  | zero =>
    rw [growSegF, if_neg]
    intro hc
    omega
  | succ k =>
    rw [growSegF]
    split
    · exact growSegF_stable phys va base (k + 1) k (seglen + PAGE_SIZE)
        (by unfold PAGE_SIZE; omega)
    · rfl

/-- Adding fuel beyond `len` does not change the PRDT loop: every iteration
consumes at least one byte of the remaining length. -/
theorem buildPrdtF_stable (phys : Nat → Nat) :
    ∀ fuel va len, len ≤ fuel →
      buildPrdtF phys fuel va len = buildPrdtF phys (fuel + 1) va len := by
  intro fuel
  induction fuel with
  | zero =>
    intro va len h
    have h0 : len = 0 := by omega
    subst h0
    rfl
  | succ n ihn =>
    intro va len h
    cases len with
    | zero => rfl
    | succ m =>
      rw [buildPrdtF]
      conv_rhs => rw [buildPrdtF]
      have hg : 1 ≤ PAGE_SIZE - phys va % PAGE_SIZE := by
        have hm := Nat.mod_lt (phys va) (show 0 < PAGE_SIZE by decide)
        omega
      have hS : 1 ≤ min MAX_SEG_LEN (min (m + 1)
          (growSeg phys va (phys va) (m + 1) (PAGE_SIZE - phys va % PAGE_SIZE))) := by
        refine le_min (by decide) (le_min (by omega) ?_)
        exact le_trans hg (growSegF_ge phys va (phys va) (m + 1) (m + 1) _)
      split
      · rfl
      · rw [ihn (va + min MAX_SEG_LEN (min (m + 1)
            (growSeg phys va (phys va) (m + 1) (PAGE_SIZE - phys va % PAGE_SIZE))))
          ((m + 1) - min MAX_SEG_LEN (min (m + 1)
            (growSeg phys va (phys va) (m + 1) (PAGE_SIZE - phys va % PAGE_SIZE))))
          (by omega)]

/-- Any fuel of at least `len` gives the same PRDT loop result. -/
theorem buildPrdtF_add (phys : Nat → Nat) (fuel va len : Nat) (h : len ≤ fuel) :
    ∀ k, buildPrdtF phys fuel va len = buildPrdtF phys (fuel + k) va len := by
  intro k
  induction k with
  | zero => rfl
  | succ j ihj =>
    rw [ihj, buildPrdtF_stable phys (fuel + j) va len (by omega)]
    rfl

/-- Any two sufficient fuels give the same PRDT loop result. -/
theorem buildPrdtF_congr (phys : Nat → Nat) (f1 f2 va len : Nat)
    (h1 : len ≤ f1) (h2 : len ≤ f2) :
    buildPrdtF phys f1 va len = buildPrdtF phys f2 va len := by
  obtain ⟨k1, hk1⟩ : ∃ k, f1 = len + k := ⟨f1 - len, by omega⟩
  obtain ⟨k2, hk2⟩ : ∃ k, f2 = len + k := ⟨f2 - len, by omega⟩
  subst hk1
  subst hk2
  rw [← buildPrdtF_add phys len va len (le_refl _) k1,
    ← buildPrdtF_add phys len va len (le_refl _) k2]

/-- The wrapped PRDT loop satisfies the recurrence of the outer while loop of
`Port::do_fis` exactly. -/
theorem buildPrdt_eq (phys : Nat → Nat) (va len : Nat) :
    buildPrdt phys va len =
      (if len = 0 then some []
       else
        let base := phys va
        let seglen := growSeg phys va base len (PAGE_SIZE - base % PAGE_SIZE)
        let seglen := min len seglen
        let seglen := min MAX_SEG_LEN seglen
        if base % 4 ≠ 0 ∨ seglen % 2 ≠ 0 then none
        else
          match buildPrdt phys (va + seglen) (len - seglen) with
          | none => none
          | some rest => some ((base, seglen - 1) :: rest)) := by
  unfold buildPrdt
  cases len with
  | zero => rfl
  | succ m =>
    rw [buildPrdtF]
    simp only [Nat.succ_ne_zero, if_false]
    have hg : 1 ≤ PAGE_SIZE - phys va % PAGE_SIZE := by
      have hm := Nat.mod_lt (phys va) (show 0 < PAGE_SIZE by decide)
      omega
    set S := min MAX_SEG_LEN (min (m + 1)
      (growSeg phys va (phys va) (m + 1) (PAGE_SIZE - phys va % PAGE_SIZE))) with hSdef
    have hS : 1 ≤ S := by
      rw [hSdef]
      refine le_min (by decide) (le_min (by omega) ?_)
      exact le_trans hg (growSegF_ge phys va (phys va) (m + 1) (m + 1) _)
    split
    · rfl
    · rw [buildPrdtF_congr phys m ((m + 1) - S) (va + S) ((m + 1) - S)
        (by omega) (le_refl _)]

/-! ## C9: driver selection -/

/-- Invariant of the `find_driver` scan: a `some` result is either the
incumbent with every scanned driver ranking at most `best_ranking`, or a
driver of the searched bus type that strictly beats `best_ranking`, is
maximal among the scanned drivers, and strictly beats every driver scanned
before it. -/
theorem find_driver_loop_spec (bus : String) (dev : Nat) :
    ∀ (l : List DriverModel) (br : Nat) (best : Option DriverModel) (d : DriverModel),
      find_driver_loop bus dev l br best = some d →
      (best = some d ∧ ∀ d2 ∈ l, d2.bus_type = bus → d2.handles dev ≤ br) ∨
      (d.bus_type = bus ∧ br < d.handles dev ∧
        (∀ d2 ∈ l, d2.bus_type = bus → d2.handles dev ≤ d.handles dev) ∧
        ∃ pre post, l = pre ++ d :: post ∧
          ∀ d2 ∈ pre, d2.bus_type = bus → d2.handles dev < d.handles dev) := by
  intro l
  induction l with
  | nil =>
    intro br best d h
    exact Or.inl ⟨h, by simp⟩
  | cons hd tl ih =>
    intro br best d h
    rw [find_driver_loop] at h
    by_cases hb : hd.bus_type = bus
    · rw [if_pos hb] at h
      by_cases h0 : hd.handles dev = 0
      · rw [if_pos h0] at h
        rcases ih br best d h with ⟨he, hall⟩ | ⟨hbus, hbr, hall, pre, post, heq, hpre⟩
        · refine Or.inl ⟨he, ?_⟩
          intro d2 hd2 hb2
          rcases List.mem_cons.mp hd2 with rfl | hd2
          · omega
          · exact hall d2 hd2 hb2
        · refine Or.inr ⟨hbus, hbr, ?_, hd :: pre, post, by simp [heq], ?_⟩
          · intro d2 hd2 hb2
            rcases List.mem_cons.mp hd2 with rfl | hd2
            · omega
            · exact hall d2 hd2 hb2
          · intro d2 hd2 hb2
            rcases List.mem_cons.mp hd2 with rfl | hd2
            · omega
            · exact hpre d2 hd2 hb2
      · rw [if_neg h0] at h
        by_cases hlt : br < hd.handles dev
        · rw [if_pos hlt] at h
          rcases ih (hd.handles dev) (some hd) d h with
            ⟨he, hall⟩ | ⟨hbus, hbr, hall, pre, post, heq, hpre⟩
          · cases he
            refine Or.inr ⟨hb, hlt, ?_, [], tl, rfl, by simp⟩
            intro d2 hd2 hb2
            rcases List.mem_cons.mp hd2 with rfl | hd2
            · exact le_refl _
            · exact hall d2 hd2 hb2
          · refine Or.inr ⟨hbus, lt_trans hlt hbr, ?_, hd :: pre, post, by simp [heq], ?_⟩
            · intro d2 hd2 hb2
              rcases List.mem_cons.mp hd2 with rfl | hd2
              · exact le_of_lt hbr
              · exact hall d2 hd2 hb2
            · intro d2 hd2 hb2
              rcases List.mem_cons.mp hd2 with rfl | hd2
              · exact hbr
              · exact hpre d2 hd2 hb2
        · rw [if_neg hlt] at h
          rcases ih br best d h with ⟨he, hall⟩ | ⟨hbus, hbr, hall, pre, post, heq, hpre⟩
          · refine Or.inl ⟨he, ?_⟩
            intro d2 hd2 hb2
            rcases List.mem_cons.mp hd2 with rfl | hd2
            · omega
            · exact hall d2 hd2 hb2
          · refine Or.inr ⟨hbus, hbr, ?_, hd :: pre, post, by simp [heq], ?_⟩
            · intro d2 hd2 hb2
              rcases List.mem_cons.mp hd2 with rfl | hd2
              · omega
              · exact hall d2 hd2 hb2
            · intro d2 hd2 hb2
              rcases List.mem_cons.mp hd2 with rfl | hd2
              · omega
              · exact hpre d2 hd2 hb2
    · rw [if_neg hb] at h
      rcases ih br best d h with ⟨he, hall⟩ | ⟨hbus, hbr, hall, pre, post, heq, hpre⟩
      · refine Or.inl ⟨he, ?_⟩
        intro d2 hd2 hb2
        rcases List.mem_cons.mp hd2 with rfl | hd2
        · exact absurd hb2 hb
        · exact hall d2 hd2 hb2
      · refine Or.inr ⟨hbus, hbr, ?_, hd :: pre, post, by simp [heq], ?_⟩
        · intro d2 hd2 hb2
          rcases List.mem_cons.mp hd2 with rfl | hd2
          · exact absurd hb2 hb
          · exact hall d2 hd2 hb2
        · intro d2 hd2 hb2
          rcases List.mem_cons.mp hd2 with rfl | hd2
          · exact absurd hb2 hb
          · exact hpre d2 hd2 hb2

/-- C9: `device_manager::find_driver` selects, per device, a matching-bus
driver with nonzero ranking that is maximal among the registered drivers and
strictly beats every earlier-registered matching driver (so a ranking tie is
resolved in favour of the first registered, and a ranking-0 driver is never
selected); in particular with D1 ranking 5 and D2 ranking 10 registered for
bus "x", D2 is selected, and with both ranking 5, D1 is selected. -/
theorem find_driver_spec :
    (∀ (bus : String) (dev : Nat) (drivers : List DriverModel) (d : DriverModel),
      find_driver bus dev drivers = some d →
        d.bus_type = bus ∧ d.handles dev ≠ 0 ∧
        (∀ d2 ∈ drivers, d2.bus_type = bus → d2.handles dev ≤ d.handles dev) ∧
        ∃ pre post, drivers = pre ++ d :: post ∧
          ∀ d2 ∈ pre, d2.bus_type = bus → d2.handles dev < d.handles dev) ∧
    find_driver "x" 0 [⟨"x", fun _ => 5⟩, ⟨"x", fun _ => 10⟩] =
      some ⟨"x", fun _ => 10⟩ ∧
    find_driver "x" 0 [⟨"x", fun _ => 5⟩, ⟨"x", fun a => 5 + a⟩] =
      some ⟨"x", fun _ => 5⟩ := by
  refine ⟨?_, rfl, rfl⟩
  intro bus dev drivers d h
  rcases find_driver_loop_spec bus dev drivers 0 none d h with
    ⟨he, _⟩ | ⟨hbus, hbr, hall, hex⟩
  · cases he
  · exact ⟨hbus, by omega, hall, hex⟩

/-- C9 witness: the selection theorem applied to the two-driver registry of
the claim, with the `find_driver` hypothesis discharged by evaluation. -/
theorem find_driver_spec_witness :
    (DriverModel.mk "x" (fun _ => 10)).bus_type = "x" ∧
    (DriverModel.mk "x" (fun _ => 10)).handles 0 ≠ 0 :=
  let h := find_driver_spec.1 "x" 0 [⟨"x", fun _ => 5⟩, ⟨"x", fun _ => 10⟩]
    ⟨"x", fun _ => 10⟩ rfl
  ⟨h.1, h.2.1⟩

/-! ## Slot-pool lemmas -/

/-- When the scan of `Port::get_command_slot` finds a slot below `max`, that
slot's bit is clear. -/
theorem lowestClear_testBit (mask max : Nat) (h : lowestClear mask max < max) :
    mask.testBit (lowestClear mask max) = false := by
  unfold lowestClear at h ⊢
  cases hf : (List.range max).find? (fun i => mask &&& (1 <<< i) == 0) with
  | none => simp [hf] at h
  | some i =>
    simp only [hf]
    have hp := List.find?_some hf
    simp only [beq_iff_eq] at hp
    exact (land_one_shiftLeft_eq_zero_iff mask i).mp hp

/-- On an all-zero bitmask with at least one slot, the scan picks slot 0. -/
theorem lowestClear_zero (max : Nat) (h : 0 < max) : lowestClear 0 max = 0 := by
  unfold lowestClear
  obtain ⟨k, rfl⟩ : ∃ k, max = k + 1 := ⟨max - 1, by omega⟩
  rw [List.range_succ_eq_map, List.find?_cons]
  simp

/-- testBit of the `u32` bit-clear operation below bit 32. -/
theorem testBit_clearBit32 (n a i : Nat) (hi : i < 32) :
    (clearBit32 n a).testBit i = (n.testBit i && !(decide (a = i))) := by
  unfold clearBit32
  rw [Nat.testBit_and, Nat.testBit_xor, Nat.testBit_two_pow_sub_one,
    Nat.one_shiftLeft, Nat.testBit_two_pow]
  simp [hi]

/-- Setting a clear bit below 32 increments the popcount. -/
theorem popcount32_or (n a : Nat) (ha : a < 32) (hb : n.testBit a = false) :
    popcount32 (n ||| (1 <<< a)) = popcount32 n + 1 := by
  unfold popcount32
  have hset : ((Finset.range 32).filter (fun i => (n ||| (1 <<< a)).testBit i = true)) =
      insert a ((Finset.range 32).filter (fun i => n.testBit i = true)) := by
    ext i
    simp only [Finset.mem_filter, Finset.mem_insert, Finset.mem_range,
      Nat.testBit_or, Nat.one_shiftLeft, Nat.testBit_two_pow, Bool.or_eq_true,
      decide_eq_true_eq]
    constructor
    · rintro ⟨hi, hbit | rfl⟩
      · exact Or.inr ⟨hi, hbit⟩
      · exact Or.inl rfl
    · rintro (rfl | ⟨hi, hbit⟩)
      · exact ⟨ha, Or.inr rfl⟩
      · exact ⟨hi, Or.inl hbit⟩
  rw [hset, Finset.card_insert_of_not_mem]
  simp [hb]

/-- Clearing a set bit below 32 decrements the popcount. -/
theorem popcount32_clear (n a : Nat) (ha : a < 32) (hb : n.testBit a = true) :
    popcount32 (clearBit32 n a) + 1 = popcount32 n ∧ 0 < popcount32 n := by
  have hmem : a ∈ (Finset.range 32).filter (fun i => n.testBit i = true) := by
    simp [Finset.mem_filter, Finset.mem_range, ha, hb]
  have hpos : 0 < popcount32 n := Finset.card_pos.mpr ⟨a, hmem⟩
  refine ⟨?_, hpos⟩
  unfold popcount32
  have hset : ((Finset.range 32).filter (fun i => (clearBit32 n a).testBit i = true)) =
      ((Finset.range 32).filter (fun i => n.testBit i = true)).erase a := by
    ext i
    simp only [Finset.mem_filter, Finset.mem_erase, Finset.mem_range]
    constructor
    · rintro ⟨hi, hbit⟩
      rw [testBit_clearBit32 n a i hi, Bool.and_eq_true] at hbit
      refine ⟨?_, hi, hbit.1⟩
      intro hia
      rw [hia] at hbit
      simp at hbit
    · rintro ⟨hia, hi, hbit⟩
      refine ⟨hi, ?_⟩
      rw [testBit_clearBit32 n a i hi, hbit]
      simp
      exact fun he => hia he.symm
  rw [hset, Finset.card_erase_of_mem hmem]
  unfold popcount32 at hpos
  omega

/-! ## C2: the counting invariant (sequential model) -/

/-- Invariant tying the bitmask to the semaphore count. -/
def SInv (max : Nat) (s : SState) : Prop :=
  popcount32 s.used = max - s.sem ∧ s.sem ≤ max ∧ s.used < 2 ^ 32

/-- Every state reachable by completed acquire and release operations
satisfies the counting invariant. -/
theorem seq_inv (max : Nat) (hmax : max ≤ 32) :
    ∀ s, SeqReachable max s → SInv max s := by
  intro s h
  unfold SeqReachable at h
  induction h with
  | refl =>
    refine ⟨?_, le_refl max, Nat.two_pow_pos 32⟩
    simp [initSState, popcount32]
  | tail hsteps hstep ih =>
    rcases ih with ⟨hpc, hsem, hlt⟩
    cases hstep with
    | acquire hs hav =>
      rename_i b
      have ha32 : lowestClear b.used max < 32 := lt_of_lt_of_le hav hmax
      have hbit := lowestClear_testBit b.used max hav
      refine ⟨?_, ?_, ?_⟩
      · show popcount32 (b.used ||| (1 <<< lowestClear b.used max)) = max - (b.sem - 1)
        rw [popcount32_or b.used _ ha32 hbit]
        omega
      · show b.sem - 1 ≤ max
        omega
      · show (b.used ||| (1 <<< lowestClear b.used max)) < 2 ^ 32
        exact Nat.or_lt_two_pow hlt
          (by rw [Nat.one_shiftLeft]; exact Nat.pow_lt_pow_right (by norm_num) ha32)
    | release idx hidx hbit =>
      rename_i b
      have hi32 : idx < 32 := lt_of_lt_of_le hidx hmax
      obtain ⟨hdec, hpos⟩ := popcount32_clear b.used idx hi32 hbit
      refine ⟨?_, ?_, ?_⟩
      · show popcount32 (clearBit32 b.used idx) = max - (b.sem + 1)
        omega
      · show b.sem + 1 ≤ max
        omega
      · show clearBit32 b.used idx < 2 ^ 32
        exact lt_of_le_of_lt Nat.and_le_left hlt

/-- C2: in every state reachable by a sequence of completed
`Port::get_command_slot` and `CommandSlot::drop` operations,
`popcount(used_commands) = max_commands - semaphore count`; and after any
sequence of `N ≤ max_commands` acquire-then-release pairs the bitmask is back
to zero and the semaphore back to `max_commands`. -/
theorem slot_pool_counting (max N : Nat) (h1 : 1 ≤ max) (h2 : max ≤ 32) (hN : N ≤ max) :
    (∀ s, SeqReachable max s → popcount32 s.used = max - s.sem) ∧
    (acqRelF max)^[N] (initSState max) = initSState max := by
  constructor
  · intro s hs
    exact (seq_inv max h2 s hs).1
  · apply Function.iterate_fixed
    have hlc : lowestClear 0 max = 0 := lowestClear_zero max h1
    show releaseF _ _ = _
    unfold releaseF acquireF initSState
    simp only [hlc]
    have hcb : clearBit32 (0 ||| (1 <<< 0)) 0 = 0 := by decide
    rw [hcb]
    have hsem : max - 1 + 1 = max := by omega
    rw [hsem]

/-- C2 witness: the counting theorem applied at `max_commands = 1`, `N = 1`,
at the initial state. -/
theorem slot_pool_counting_witness :
    popcount32 (initSState 1).used = 1 - (initSState 1).sem ∧
    (acqRelF 1)^[1] (initSState 1) = initSState 1 :=
  ⟨(slot_pool_counting 1 1 (by decide) (by decide) (by decide)).1 _
      Relation.ReflTransGen.refl,
    (slot_pool_counting 1 1 (by decide) (by decide) (by decide)).2⟩

/-! ## C1: no double hold (fine-grained concurrent model) -/

/-- Updating one agent to any non-holding local state preserves the pool
invariant as long as the bitmask is unchanged (the semaphore may change). -/
theorem poolInv_update_non_holding (max : Nat) (b : PoolState) (t : Nat)
    (x : AgentState) (hx : ∀ idx, x ≠ AgentState.holding idx)
    (inv : PoolInv max b) (sem2 : Nat) :
    PoolInv max ⟨b.used, sem2, Function.update b.agents t x⟩ := by
  obtain ⟨ihA, ihB⟩ := inv
  constructor
  · intro u idx hu
    dsimp only at hu ⊢
    by_cases hut : u = t
    · subst hut
      rw [Function.update_same] at hu
      exact absurd hu (hx idx)
    · rw [Function.update_noteq hut] at hu
      exact ihA u idx hu
  · intro u v idx hu hv
    dsimp only at hu hv
    by_cases hut : u = t
    · subst hut
      rw [Function.update_same] at hu
      exact absurd hu (hx idx)
    · by_cases hvt : v = t
      · subst hvt
        rw [Function.update_same] at hv
        exact absurd hv (hx idx)
      · rw [Function.update_noteq hut] at hu
        rw [Function.update_noteq hvt] at hv
        exact ihB u v idx hu hv

/-- The pool invariant holds in every reachable state of the fine-grained
concurrent model. -/
theorem pool_inv (max : Nat) (hmax : max ≤ 32) :
    ∀ s, PoolReachable max s → PoolInv max s := by
  intro s h
  unfold PoolReachable at h
  induction h with
  | refl =>
    constructor
    · intro t idx hidx
      simp [initPool] at hidx
    · intro t u idx ht hu
      simp [initPool] at ht
  | tail hsteps hstep ih =>
    cases hstep with
    | sem_acquire t s0 hs hsem =>
      rename_i b
      exact poolInv_update_non_holding max b t .acquired (fun idx h => by cases h) ih _
    | load t s0 hs =>
      rename_i b
      exact poolInv_update_non_holding max b t (.searching b.used) (fun idx h => by cases h) ih _
    | cas_fail t cur s0 hs hne =>
      rename_i b
      exact poolInv_update_non_holding max b t (.searching b.used) (fun idx h => by cases h) ih _
    | sem_release t s0 hs =>
      rename_i b
      exact poolInv_update_non_holding max b t .idle (fun idx h => by cases h) ih _
    | cas_success t cur s0 hag hused hav =>
      rename_i b
      obtain ⟨ihA, ihB⟩ := ih
      have hbitclear : cur.testBit (lowestClear cur max) = false :=
        lowestClear_testBit cur max hav
      constructor
      · intro u idx hu
        dsimp only at hu ⊢
        by_cases hut : u = t
        · subst hut
          rw [Function.update_same] at hu
          cases hu
          refine ⟨hav, ?_⟩
          rw [Nat.testBit_or, Nat.one_shiftLeft, Nat.testBit_two_pow_self]
          simp
        · rw [Function.update_noteq hut] at hu
          obtain ⟨hi, hbit⟩ := ihA u idx hu
          refine ⟨hi, ?_⟩
          rw [hused] at hbit
          rw [Nat.testBit_or, hbit]
          simp
      · intro u v idx hu hv
        dsimp only at hu hv
        by_cases hut : u = t
        · by_cases hvt : v = t
          · rw [hut, hvt]
          · subst hut
            rw [Function.update_same] at hu
            rw [Function.update_noteq hvt] at hv
            cases hu
            obtain ⟨hi, hbit⟩ := ihA v _ hv
            rw [hused] at hbit
            rw [hbit] at hbitclear
            cases hbitclear
        · by_cases hvt : v = t
          · subst hvt
            rw [Function.update_same] at hv
            rw [Function.update_noteq hut] at hu
            cases hv
            obtain ⟨hi, hbit⟩ := ihA u _ hu
            rw [hused] at hbit
            rw [hbit] at hbitclear
            cases hbitclear
          · rw [Function.update_noteq hut] at hu
            rw [Function.update_noteq hvt] at hv
            exact ihB u v idx hu hv
    | drop_clear t idx0 s0 hag =>
      rename_i b
      obtain ⟨ihA, ihB⟩ := ih
      constructor
      · intro u i hu
        dsimp only at hu ⊢
        by_cases hut : u = t
        · subst hut
          rw [Function.update_same] at hu
          cases hu
        · rw [Function.update_noteq hut] at hu
          obtain ⟨hi, hbit⟩ := ihA u i hu
          have hne : idx0 ≠ i := by
            intro he
            subst he
            exact hut (ihB u t idx0 hu hag)
          refine ⟨hi, ?_⟩
          rw [testBit_clearBit32 b.used idx0 i (lt_of_lt_of_le hi hmax), hbit]
          simp [hne]
      · intro u v i hu hv
        dsimp only at hu hv
        by_cases hut : u = t
        · subst hut
          rw [Function.update_same] at hu
          cases hu
        · by_cases hvt : v = t
          · subst hvt
            rw [Function.update_same] at hv
            cases hv
          · rw [Function.update_noteq hut] at hu
            rw [Function.update_noteq hvt] at hv
            exact ihB u v i hu hv

/-- C1: for every `max_commands` in 1..=32, in every state reachable under
arbitrary interleaving of concurrent `Port::get_command_slot` and
`CommandSlot::drop` executions, no slot index is held by two live
`CommandSlot` handles: two agents holding the same index are the same
agent. -/
theorem pool_no_double_hold (max : Nat) (h1 : 1 ≤ max) (h2 : max ≤ 32)
    (s : PoolState) (hs : PoolReachable max s) (t u idx : Nat)
    (ht : s.agents t = .holding idx) (hu : s.agents u = .holding idx) : t = u :=
  (pool_inv max h2 s hs).2 t u idx ht hu

/-- C1 witness: a concrete three-step execution (semaphore acquire, bitmask
load, successful compare-and-swap) reaching a state where agent 0 holds
slot 0, to which the no-double-hold theorem applies. -/
theorem pool_no_double_hold_witness : (0 : Nat) = 0 := by
  have h1 : PoolStep 1 (initPool 1)
      ⟨0, 0, Function.update (fun _ => AgentState.idle) 0 .acquired⟩ :=
    PoolStep.sem_acquire 0 (initPool 1) rfl (by decide)
  have h2 : PoolStep 1
      (⟨0, 0, Function.update (fun _ => AgentState.idle) 0 .acquired⟩ : PoolState)
      ⟨0, 0, Function.update (Function.update (fun _ => AgentState.idle) 0 .acquired) 0
        (.searching 0)⟩ :=
    PoolStep.load 0 _ (by decide)
  have h3 : PoolStep 1
      (⟨0, 0, Function.update (Function.update (fun _ => AgentState.idle) 0 .acquired) 0
        (.searching 0)⟩ : PoolState)
      ⟨1, 0, Function.update
        (Function.update (Function.update (fun _ => AgentState.idle) 0 .acquired) 0
          (.searching 0)) 0 (.holding 0)⟩ :=
    PoolStep.cas_success 0 0 _ (by decide) rfl (by decide)
  have hreach : PoolReachable 1
      ⟨1, 0, Function.update
        (Function.update (Function.update (fun _ => AgentState.idle) 0 .acquired) 0
          (.searching 0)) 0 (.holding 0)⟩ :=
    Relation.ReflTransGen.tail
      (Relation.ReflTransGen.tail (Relation.ReflTransGen.tail Relation.ReflTransGen.refl h1) h2)
      h3
  exact pool_no_double_hold 1 (by decide) (by decide) _ hreach 0 0 0 (by decide) (by decide)

end Ahci
